import Mathlib

/-!
Shallow embedding of `aw_datastore/datastore.py`: the `Datastore` facade and its
`Bucket` handles, together with a model of the external storage strategy they
delegate to.  Python `datetime` instants are modelled as whole seconds plus a
microsecond component; events, bucket metadata and the bucket-handle cache are
modelled as plain records and association lists.  Each facade operation returns,
besides its result and the successor state, the list of storage-strategy calls
it issued and the list of log messages it emitted, so that statements about
"what is passed to the storage strategy" and about warnings are direct.
-/

namespace AwDatastore

/-- A UTC instant, as Python's `datetime` is used here: whole seconds since an
arbitrary epoch plus a `microsecond` component.  A well-formed instant has
`microsecond < 1000000`; theorems that need this take it as a hypothesis. -/
structure DateTime where
  seconds : Int
  microsecond : Nat
deriving Repr, DecidableEq

/-- The instant as a total count of microseconds: the comparison key for
`datetime` ordering. -/
def DateTime.toMicros (t : DateTime) : Int :=
  t.seconds * 1000000 + t.microsecond

/-- Stand-in for Python's `datetime.isoformat()`: a textual rendering of the
instant (the facade only ever produces it and hands it to the storage
strategy, so only equality of renderings matters here). -/
def DateTime.isoformat (t : DateTime) : String :=
  toString t.seconds ++ "." ++ toString t.microsecond ++ "+00:00"

/-- Modelled from the spec: `aw_core.models.Event` is not under `src/`.  §3:
"a timestamped record with fields {id (optional, assigned by storage),
timestamp (point in time, UTC), duration (optional), data (arbitrary
key-value payload)}". -/
structure Event where
  id : Option Nat := none
  timestamp : DateTime
  duration : Option Nat := none
  data : List (String × String) := []
deriving Repr, DecidableEq

/-- Modelled from the spec: bucket metadata, §3: {bucket_id, type, client,
hostname, created (received by the storage strategy as an ISO-8601 string),
name (optional)}. -/
structure BucketMeta where
  type_ : String
  client : String
  hostname : String
  created : String
  name : Option String
deriving Repr, DecidableEq

/-- First value bound to `k` in an association list. -/
def alookup (l : List (String × α)) (k : String) : Option α :=
  (l.find? (fun p => p.1 == k)).map (fun p => p.2)

/-- Stable insertion (by a boolean `le` on events) of `e` into `l`: `e` is
placed before the first element it compares `le` to, so equal elements keep
their original relative order. -/
def insertByTs (le : Event → Event → Bool) (e : Event) : List Event → List Event
  | [] => [e]
  | x :: xs => if le e x then e :: x :: xs else x :: insertByTs le e xs

/-- Stable sort by `le`; models Python's stable `sorted`. -/
def sortByTs (le : Event → Event → Bool) : List Event → List Event
  | [] => []
  | x :: xs => insertByTs le x (sortByTs le xs)

/-- Ascending comparison by timestamp, the key `lambda k: k['timestamp']`. -/
def tsLe (a b : Event) : Bool :=
  a.timestamp.toMicros ≤ b.timestamp.toMicros

/-- Descending comparison by timestamp, for the storage ordering of §6. -/
def tsGe (a b : Event) : Bool :=
  b.timestamp.toMicros ≤ a.timestamp.toMicros

/-- Does `e` fall inside the (inclusive) query window `[st, et]`?  A `none`
bound is absent. -/
def inPeriod (st et : Option DateTime) (e : Event) : Bool :=
  (match st with
   | none => true
   | some t => t.toMicros ≤ e.timestamp.toMicros) &&
  (match et with
   | none => true
   | some t => e.timestamp.toMicros ≤ t.toMicros)

/-- Modelled from the spec: the storage strategy (`aw_datastore.storages`) is
not under `src/`.  §6 enumerates its contract; the model keeps the bucket
listing and the per-bucket events as association lists, plus a counter for
the identifiers it assigns to inserted events. -/
structure Storage where
  metas : List (String × BucketMeta)
  events : List (String × List Event)
  nextId : Nat
deriving Repr, DecidableEq

/-- The empty backend: no buckets. -/
def Storage.empty : Storage :=
  { metas := [], events := [], nextId := 0 }

/-- Is `bucket_id` present in the storage strategy's bucket listing?  Models
membership in the mapping returned by `buckets()` (§6). -/
def Storage.hasBucket (s : Storage) (bucket_id : String) : Bool :=
  (alookup s.metas bucket_id).isSome

/-- Modelled from the spec, §6: `create_bucket(...) -> None`; records the
metadata (uniqueness policy is delegated, so an existing id is shadowed). -/
def Storage.create_bucket (s : Storage) (bucket_id : String) (meta : BucketMeta) : Storage :=
  { s with metas := (bucket_id, meta) :: s.metas }

/-- Modelled from the spec, §6: `delete_bucket(bucket_id) -> None`; removes the
bucket's listing entry and all of its persisted events. -/
def Storage.delete_bucket (s : Storage) (bucket_id : String) : Storage :=
  { s with
    metas := s.metas.filter (fun p => ¬ p.1 == bucket_id)
    events := s.events.filter (fun p => ¬ p.1 == bucket_id) }

/-- Events persisted for `bucket_id` (insertion order). -/
def Storage.eventsOf (s : Storage) (bucket_id : String) : List Event :=
  (alookup s.events bucket_id).getD []

/-- Modelled from the spec, §6: `get_events(bucket_id, limit, starttime,
endtime)` returns the events in the window, descending by timestamp; a
limit `n ≥ 0` returns at most `n` of them, a negative limit is unbounded. -/
def Storage.get_events (s : Storage) (bucket_id : String) (limit : Int)
    (starttime endtime : Option DateTime) : List Event :=
  let evs := sortByTs tsGe ((s.eventsOf bucket_id).filter (inPeriod starttime endtime))
  if limit < 0 then evs else evs.take limit.toNat

/-- Replace the events stored for `bucket_id` by `evs`. -/
def Storage.setEvents (s : Storage) (bucket_id : String) (evs : List Event) : Storage :=
  { s with events := (bucket_id, evs) :: s.events.filter (fun p => ¬ p.1 == bucket_id) }

/-- Modelled from the spec, §6: `insert_one(bucket_id, event) -> Event` with an
assigned identifier. -/
def Storage.insert_one (s : Storage) (bucket_id : String) (e : Event) : Event × Storage :=
  let e' := { e with id := some s.nextId }
  (e', { s.setEvents bucket_id (s.eventsOf bucket_id ++ [e']) with nextId := s.nextId + 1 })

/-- Modelled from the spec, §6: `insert_many(bucket_id, events) -> sequence of
Event`, identifiers assigned in order. -/
def Storage.insert_many (s : Storage) (bucket_id : String) : List Event → List Event × Storage
  | [] => ([], s)
  | e :: es =>
      let (e', s') := s.insert_one bucket_id e
      let (es', s'') := s'.insert_many bucket_id es
      (e' :: es', s'')

/-- One call issued to the storage strategy, recorded so that theorems can
speak about what the facade passes through. -/
inductive SCall where
  | bucketsCall
  | createBucketCall (bucket_id : String) (meta : BucketMeta)
  | deleteBucketCall (bucket_id : String)
  | getEventsCall (bucket_id : String) (limit : Int) (starttime endtime : Option DateTime)
  | insertOneCall (bucket_id : String) (e : Event)
  | insertManyCall (bucket_id : String) (es : List Event)
deriving Repr, DecidableEq

/-- A log message emitted by the facade. -/
inductive LogMsg where
  | errorNoSuchBucket (bucket_id : String)
  | infoCreatingBucket (bucket_id : String)
  | infoDeletingBucket (bucket_id : String)
  | warnOlderTimestamp (previous inserted : Event)
deriving Repr, DecidableEq

/-- An error raised by the facade: `KeyError` from lookup, `TypeError` from
`insert`. -/
inductive DsError where
  | keyError
  | typeError
deriving Repr, DecidableEq

/-- The `Datastore` facade state: the bucket-handle cache (a `Bucket` handle
holds no state beyond its `bucket_id`, so the cache is the list of ids that
currently have a handle) and the owned storage strategy. -/
structure Datastore where
  bucket_instances : List String
  storage : Storage
deriving Repr, DecidableEq

/-- `Datastore.__init__`: an empty handle cache and the storage instance the
factory produced. -/
def Datastore.init (s : Storage) : Datastore :=
  { bucket_instances := [], storage := s }

/-- `Datastore.__getitem__(bucket_id)`: return the cached handle when present;
otherwise consult the storage strategy's bucket listing, caching a fresh
handle on a hit and logging and raising `KeyError` on a miss. -/
def Datastore.getItem (ds : Datastore) (bucket_id : String) :
    Except DsError String × Datastore × List SCall × List LogMsg :=
  if ds.bucket_instances.contains bucket_id then
    (.ok bucket_id, ds, [], [])
  else if ds.storage.hasBucket bucket_id then
    (.ok bucket_id,
     { ds with bucket_instances := bucket_id :: ds.bucket_instances },
     [.bucketsCall], [])
  else
    (.error .keyError, ds, [.bucketsCall], [.errorNoSuchBucket bucket_id])

/-- The default value of the `created` parameter of `Datastore.create_bucket`.
Python evaluates the default expression `datetime.now(timezone.utc)` once,
when the `class Datastore` body is executed at import time; every later call
that omits `created` reuses that value.  `importTime` is the instant at which
the module was imported. -/
def createdDefault (importTime : DateTime) : DateTime :=
  importTime

/-- `Datastore.create_bucket(bucket_id, type, client, hostname, created, name)`:
log, delegate creation to the storage strategy with `created.isoformat()`,
then return `self[bucket_id]`.  A call that omits `created` passes `none` and
gets `createdDefault importTime`. -/
def Datastore.create_bucket (importTime : DateTime) (ds : Datastore)
    (bucket_id type_ client hostname : String)
    (created : Option DateTime) (name : Option String) :
    Except DsError String × Datastore × List SCall × List LogMsg :=
  let createdVal := created.getD (createdDefault importTime)
  let meta : BucketMeta :=
    { type_ := type_, client := client, hostname := hostname,
      created := createdVal.isoformat, name := name }
  let ds' := { ds with storage := ds.storage.create_bucket bucket_id meta }
  let (res, ds'', calls, logs) := ds'.getItem bucket_id
  (res, ds'', .createBucketCall bucket_id meta :: calls, .infoCreatingBucket bucket_id :: logs)

/-- `Datastore.delete_bucket(bucket_id)`: log, evict the cached handle when one
is present (a no-op otherwise), delegate deletion to the storage strategy. -/
def Datastore.delete_bucket (ds : Datastore) (bucket_id : String) :
    Datastore × List SCall × List LogMsg :=
  ({ bucket_instances := ds.bucket_instances.filter (fun i => ¬ i == bucket_id),
     storage := ds.storage.delete_bucket bucket_id },
   [.deleteBucketCall bucket_id], [.infoDeletingBucket bucket_id])

/-- `starttime.replace(microsecond=1000 * int(starttime.microsecond / 1000))`:
truncation of `starttime` down to the millisecond (line 65 of the source;
Python's `int` of the non-negative float quotient is floor division). -/
def truncStarttime (st : DateTime) : DateTime :=
  { st with microsecond := 1000 * (st.microsecond / 1000) }

/-- Lines 67-71 of the source: `microseconds = 1000 * int(endtime.microsecond /
1000 + 1)`; when that exceeds `999999` the endtime becomes the start of the
next second, otherwise its microsecond component is replaced. -/
def roundEndtime (et : DateTime) : DateTime :=
  let microseconds := 1000 * (et.microsecond / 1000 + 1)
  if microseconds > 999999 then
    { seconds := et.seconds + 1, microsecond := 0 }
  else
    { et with microsecond := microseconds }

/-- `Bucket.get(limit, starttime, endtime)`: truncate `starttime` down to the
millisecond, round `endtime` up past the millisecond, then delegate to the
storage strategy's `get_events` with `limit` unchanged.  (A `datetime` is
always truthy in Python, so `if starttime:` is a non-`None` test.) -/
def Bucket.get (ds : Datastore) (bucket_id : String) (limit : Int)
    (starttime endtime : Option DateTime) : List Event × List SCall :=
  let starttime := starttime.map truncStarttime
  let endtime := endtime.map roundEndtime
  (ds.storage.get_events bucket_id limit starttime endtime,
   [.getEventsCall bucket_id limit starttime endtime])

/-- The argument of `Bucket.insert`: a single `Event`, a `list` of events, or
anything else (Python is dynamically typed; `otherArg` stands for every value
that is neither). -/
inductive InsertArg where
  | single (e : Event)
  | list (es : List Event)
  | otherArg
deriving Repr, DecidableEq

/-- The value `Bucket.insert` returns: whatever the storage strategy's
`insert_one` / `insert_many` returned. -/
inductive InsertedVal where
  | one (e : Event)
  | many (es : List Event)
deriving Repr, DecidableEq

/-- `Bucket.insert(events)`: read the current last event via `self.get(1)`,
dispatch on the argument's type (raising `TypeError` for anything else, with
no insert issued), insert via the storage strategy, then warn when the oldest
inserted event is strictly older than the prior last event. -/
def Bucket.insert (ds : Datastore) (bucket_id : String) (events : InsertArg) :
    Except DsError InsertedVal × Datastore × List SCall × List LogMsg :=
  let (last_event_list, getCalls) := Bucket.get ds bucket_id 1 none none
  let last_event := last_event_list.head?
  match events with
  | .single e =>
      let oldest_event := some e
      let (ev, st') := ds.storage.insert_one bucket_id e
      (.ok (.one ev), { ds with storage := st' },
       getCalls ++ [.insertOneCall bucket_id e],
       match last_event, oldest_event with
       | some l, some o =>
           if o.timestamp.toMicros < l.timestamp.toMicros then [.warnOlderTimestamp l o] else []
       | _, _ => [])
  | .list es =>
      let oldest_event := if es.length > 0 then (sortByTs tsLe es).head? else none
      let (evs, st') := ds.storage.insert_many bucket_id es
      (.ok (.many evs), { ds with storage := st' },
       getCalls ++ [.insertManyCall bucket_id es],
       match last_event, oldest_event with
       | some l, some o =>
           if o.timestamp.toMicros < l.timestamp.toMicros then [.warnOlderTimestamp l o] else []
       | _, _ => [])
  | .otherArg =>
      (.error .typeError, ds, getCalls, [])

/-- One facade operation, for statements about operation sequences. -/
inductive Op where
  | lookup (bucket_id : String)
  | createBucket (bucket_id type_ client hostname : String)
      (created : Option DateTime) (name : Option String)
  | deleteBucket (bucket_id : String)
  | bucketsOp
  | insertOp (bucket_id : String) (events : InsertArg)
  | getOp (bucket_id : String) (limit : Int) (starttime endtime : Option DateTime)
deriving Repr, DecidableEq

/-- The state reached after one facade operation. -/
def Datastore.step (importTime : DateTime) (ds : Datastore) : Op → Datastore
  | .lookup bucket_id => (ds.getItem bucket_id).2.1
  | .createBucket bucket_id type_ client hostname created name =>
      (ds.create_bucket importTime bucket_id type_ client hostname created name).2.1
  | .deleteBucket bucket_id => (ds.delete_bucket bucket_id).1
  | .bucketsOp => ds
  | .insertOp bucket_id events => (Bucket.insert ds bucket_id events).2.1
  | .getOp _ _ _ _ => ds

/-- The state reached after a sequence of facade operations. -/
def Datastore.run (importTime : DateTime) (ds : Datastore) (ops : List Op) : Datastore :=
  ops.foldl (Datastore.step importTime) ds

/-- The cache soundness invariant: every bucket id with a cached handle is
present in the storage strategy's bucket listing. -/
def cacheInv (ds : Datastore) : Prop :=
  ∀ bucket_id ∈ ds.bucket_instances, ds.storage.hasBucket bucket_id = true

/-- Specification-side description of the "oldest inserted event": the leftmost
event of the list attaining the minimal timestamp — the minimum by
timestamp, ties broken by original order. -/
def leftmostMinByTs : List Event → Option Event
  | [] => none
  | x :: xs =>
      match leftmostMinByTs xs with
      | none => some x
      | some m => some (if x.timestamp.toMicros ≤ m.timestamp.toMicros then x else m)

/-- Specification-side description of the oldest event of an `insert` argument:
the event itself for a single event, the stable minimum for a list. -/
def oldestOfArg : InsertArg → Option Event
  | .single e => some e
  | .list es => leftmostMinByTs es
  | .otherArg => none

/-- Was the out-of-order warning emitted? -/
def warned (logs : List LogMsg) : Prop :=
  ∃ p o, LogMsg.warnOlderTimestamp p o ∈ logs

/-- Does the operation create the bucket `bucket_id`? -/
def createsId (bucket_id : String) : Op → Prop
  | .createBucket bucket_id' _ _ _ _ _ => bucket_id' = bucket_id
  | _ => False

/-- `bucket_id` is unknown to the datastore: absent from the storage listing
and from the handle cache. -/
def freshFor (bucket_id : String) (ds : Datastore) : Prop :=
  ds.storage.hasBucket bucket_id = false ∧ bucket_id ∉ ds.bucket_instances

/-! Helper lemmas about the stable sort, the association-list storage model and
the facade's state transitions. -/

theorem head?_insertByTs (le : Event → Event → Bool) (e : Event) (l : List Event) :
    (insertByTs le e l).head? =
      some (match l.head? with
            | none => e
            | some y => if le e y then e else y) := by
  cases l with
  | nil => rfl
  | cons x xs =>
      simp only [insertByTs, List.head?]
      by_cases hle : le e x = true
      · simp [hle]
      · simp [hle]

theorem head?_sortByTs_eq_leftmostMin (es : List Event) :
    (sortByTs tsLe es).head? = leftmostMinByTs es := by
  induction es with
  | nil => rfl
  | cons x xs ih =>
      simp only [sortByTs, leftmostMinByTs]
      rw [head?_insertByTs, ih]
      cases hxs : leftmostMinByTs xs with
      | none => rfl
      | some m => simp [tsLe]

theorem leftmostMin_eq_none_iff (es : List Event) :
    leftmostMinByTs es = none ↔ es = [] := by
  cases es with
  | nil => simp [leftmostMinByTs]
  | cons x xs =>
      simp only [leftmostMinByTs]
      cases leftmostMinByTs xs <;> simp

theorem leftmostMin_mem_and_min (es : List Event) (o : Event)
    (h : leftmostMinByTs es = some o) :
    o ∈ es ∧ ∀ f ∈ es, o.timestamp.toMicros ≤ f.timestamp.toMicros := by
  induction es generalizing o with
  | nil => simp [leftmostMinByTs] at h
  | cons x xs ih =>
      simp only [leftmostMinByTs] at h
      cases hxs : leftmostMinByTs xs with
      | none =>
          rw [hxs] at h
          cases h
          have hnil : xs = [] := (leftmostMin_eq_none_iff xs).mp hxs
          subst hnil
          exact ⟨List.mem_singleton_self x, by simp⟩
      | some m =>
          rw [hxs] at h
          have h' : some (if x.timestamp.toMicros ≤ m.timestamp.toMicros then x else m)
              = some o := h
          have hm := ih m hxs
          by_cases hle : x.timestamp.toMicros ≤ m.timestamp.toMicros
          · rw [if_pos hle] at h'
            cases h'
            refine ⟨List.mem_cons_self x xs, ?_⟩
            intro f hf
            rcases List.mem_cons.mp hf with rfl | hf
            · exact le_refl _
            · exact le_trans hle (hm.2 f hf)
          · rw [if_neg hle] at h'
            cases h'
            refine ⟨List.mem_cons_of_mem x hm.1, ?_⟩
            intro f hf
            rcases List.mem_cons.mp hf with rfl | hf
            · exact le_of_lt (lt_of_not_le hle)
            · exact hm.2 f hf

theorem mem_insertByTs (le : Event → Event → Bool) (e e' : Event) (l : List Event) :
    e' ∈ insertByTs le e l ↔ e' = e ∨ e' ∈ l := by
  induction l with
  | nil => simp [insertByTs]
  | cons x xs ih =>
      simp only [insertByTs]
      by_cases hle : le e x = true
      · simp [hle, List.mem_cons]
      · rw [Bool.not_eq_true] at hle
        simp only [hle, List.mem_cons, ih]
        simp only [Bool.false_eq_true, if_false, List.mem_cons, ih]
        tauto

theorem mem_sortByTs (le : Event → Event → Bool) (e : Event) (l : List Event) :
    e ∈ sortByTs le l ↔ e ∈ l := by
  induction l with
  | nil => simp [sortByTs]
  | cons x xs ih =>
      simp only [sortByTs, mem_insertByTs, ih, List.mem_cons]

theorem alookup_cons {α : Type} (k : String) (m : α) (l : List (String × α)) (j : String) :
    alookup ((k, m) :: l) j = if (k == j) then some m else alookup l j := by
  by_cases h : (k == j) = true
  · simp [alookup, List.find?_cons_of_pos, h]
  · rw [Bool.not_eq_true] at h
    simp [alookup, h]

theorem alookup_filter_ne {α : Type} (l : List (String × α)) (k j : String) (h : j ≠ k) :
    alookup (l.filter (fun p => ¬ p.1 == k)) j = alookup l j := by
  induction l with
  | nil => rfl
  | cons a l ih =>
      obtain ⟨k', m'⟩ := a
      rw [List.filter_cons]
      by_cases hk : k' = k
      · subst hk
        rw [if_neg (by simp)]
        rw [ih, alookup_cons]
        have hkj : (k' == j) = false := by
          simp only [beq_eq_false_iff_ne, ne_eq]
          exact fun he => h he.symm
        rw [hkj]
        simp
      · rw [if_pos (by simp [hk])]
        rw [alookup_cons, alookup_cons, ih]

theorem alookup_filter_self {α : Type} (l : List (String × α)) (k : String) :
    alookup (l.filter (fun p => ¬ p.1 == k)) k = none := by
  induction l with
  | nil => rfl
  | cons a l ih =>
      obtain ⟨k', m'⟩ := a
      rw [List.filter_cons]
      by_cases hk : k' = k
      · subst hk
        rw [if_neg (by simp)]
        exact ih
      · rw [if_pos (by simp [hk])]
        rw [alookup_cons, ih]
        have hkk : (k' == k) = false := by simp [hk]
        rw [hkk]
        simp

theorem hasBucket_create_self (s : Storage) (k : String) (m : BucketMeta) :
    (s.create_bucket k m).hasBucket k = true := by
  simp [Storage.create_bucket, Storage.hasBucket, alookup_cons]

theorem hasBucket_create_mono (s : Storage) (k j : String) (m : BucketMeta)
    (h : s.hasBucket j = true) : (s.create_bucket k m).hasBucket j = true := by
  simp only [Storage.create_bucket, Storage.hasBucket, alookup_cons] at *
  by_cases hkj : (k == j) = true
  · simp [hkj]
  · rw [Bool.not_eq_true] at hkj
    simp [hkj, h]

theorem hasBucket_create_ne (s : Storage) (k j : String) (m : BucketMeta)
    (h : (k == j) = false) : (s.create_bucket k m).hasBucket j = s.hasBucket j := by
  simp [Storage.create_bucket, Storage.hasBucket, alookup_cons, h]

theorem hasBucket_delete_self (s : Storage) (k : String) :
    (s.delete_bucket k).hasBucket k = false := by
  show (alookup (s.metas.filter (fun p => ¬ p.1 == k)) k).isSome = false
  rw [alookup_filter_self]
  rfl

theorem hasBucket_delete_ne (s : Storage) (k j : String) (h : j ≠ k) :
    (s.delete_bucket k).hasBucket j = s.hasBucket j := by
  show (alookup (s.metas.filter (fun p => ¬ p.1 == k)) j).isSome
      = (alookup s.metas j).isSome
  rw [alookup_filter_ne _ _ _ h]

theorem metas_insert_many (s : Storage) (bucket_id : String) (es : List Event) :
    (s.insert_many bucket_id es).2.metas = s.metas := by
  induction es generalizing s with
  | nil => rfl
  | cons e es ih => exact ih ((s.insert_one bucket_id e).2)

theorem hasBucket_insert_many (s : Storage) (bucket_id j : String) (es : List Event) :
    (s.insert_many bucket_id es).2.hasBucket j = s.hasBucket j := by
  simp [Storage.hasBucket, metas_insert_many]

theorem insert_state_list (ds : Datastore) (bucket_id : String) (es : List Event) :
    (Bucket.insert ds bucket_id (.list es)).2.1
      = { ds with storage := (ds.storage.insert_many bucket_id es).2 } :=
  rfl

theorem insert_state_single (ds : Datastore) (bucket_id : String) (e : Event) :
    (Bucket.insert ds bucket_id (.single e)).2.1
      = { ds with storage := (ds.storage.insert_one bucket_id e).2 } :=
  rfl

theorem getItem_state (ds : Datastore) (j : String) :
    (ds.getItem j).2.1 = ds ∨
    ((ds.getItem j).2.1 = { ds with bucket_instances := j :: ds.bucket_instances }
      ∧ ds.storage.hasBucket j = true) := by
  by_cases h1 : j ∈ ds.bucket_instances
  · left
    simp [Datastore.getItem, h1]
  · by_cases h2 : ds.storage.hasBucket j = true
    · right
      simp [Datastore.getItem, h1, h2]
    · left
      simp [Datastore.getItem, h1, h2]

theorem getItem_of_cached (ds : Datastore) (bucket_id : String)
    (h : bucket_id ∈ ds.bucket_instances) :
    ds.getItem bucket_id = (.ok bucket_id, ds, [], []) := by
  have hc : ds.bucket_instances.contains bucket_id = true := by simpa using h
  simp [Datastore.getItem, hc]
  intro hn
  exact absurd h hn

theorem getItem_ok_of_hasBucket (ds : Datastore) (bucket_id : String)
    (h : ds.storage.hasBucket bucket_id = true) :
    (ds.getItem bucket_id).1 = .ok bucket_id
    ∧ bucket_id ∈ (ds.getItem bucket_id).2.1.bucket_instances := by
  by_cases hc : bucket_id ∈ ds.bucket_instances
  · rw [getItem_of_cached ds bucket_id hc]
    exact ⟨rfl, hc⟩
  · simp [Datastore.getItem, hc, h]

theorem create_bucket_ok (ds : Datastore) (importTime : DateTime)
    (bucket_id type_ client hostname : String)
    (created : Option DateTime) (name : Option String) :
    (ds.create_bucket importTime bucket_id type_ client hostname created name).1
        = .ok bucket_id
    ∧ bucket_id ∈ (ds.create_bucket importTime bucket_id type_ client hostname
        created name).2.1.bucket_instances := by
  simp only [Datastore.create_bucket]
  exact getItem_ok_of_hasBucket _ _ (hasBucket_create_self _ _ _)

theorem cacheInv_getItem (ds : Datastore) (j : String) (h : cacheInv ds) :
    cacheInv (ds.getItem j).2.1 := by
  rcases getItem_state ds j with he | ⟨he, hb⟩
  · rw [he]; exact h
  · rw [he]
    intro i hi
    rcases List.mem_cons.mp hi with rfl | hi
    · exact hb
    · exact h i hi

theorem cacheInv_step (importTime : DateTime) (ds : Datastore) (op : Op)
    (h : cacheInv ds) : cacheInv (ds.step importTime op) := by
  cases op with
  | lookup j => exact cacheInv_getItem ds j h
  | createBucket j ty cl ho cr nm =>
      refine cacheInv_getItem _ _ ?_
      intro i hi
      exact hasBucket_create_mono _ _ _ _ (h i hi)
  | deleteBucket j =>
      intro i hi
      have hi' : i ∈ ds.bucket_instances.filter (fun x => ¬ x == j) := hi
      obtain ⟨hm, hne⟩ := List.mem_filter.mp hi'
      have hij : i ≠ j := by simpa using hne
      show (ds.storage.delete_bucket j).hasBucket i = true
      rw [hasBucket_delete_ne _ _ _ hij]
      exact h i hm
  | bucketsOp => exact h
  | insertOp j arg =>
      cases arg with
      | single e => exact fun i hi => h i hi
      | list es =>
          intro i hi
          show (ds.storage.insert_many j es).2.hasBucket i = true
          rw [hasBucket_insert_many]
          exact h i hi
      | otherArg => exact h
  | getOp j limit st et => exact h

theorem cacheInv_run (importTime : DateTime) (ds : Datastore) (ops : List Op)
    (h : cacheInv ds) : cacheInv (ds.run importTime ops) := by
  induction ops generalizing ds with
  | nil => exact h
  | cons op ops ih => exact ih _ (cacheInv_step importTime ds op h)

theorem freshFor_getItem (ds : Datastore) (j bucket_id : String)
    (h : freshFor bucket_id ds) : freshFor bucket_id (ds.getItem j).2.1 := by
  rcases getItem_state ds j with he | ⟨he, hb⟩
  · rw [he]; exact h
  · rw [he]
    refine ⟨h.1, ?_⟩
    intro hm
    rcases List.mem_cons.mp hm with rfl | hm
    · rw [h.1] at hb; cases hb
    · exact h.2 hm

theorem freshFor_step (importTime : DateTime) (ds : Datastore) (op : Op)
    (bucket_id : String) (h : freshFor bucket_id ds) (hop : ¬ createsId bucket_id op) :
    freshFor bucket_id (ds.step importTime op) := by
  cases op with
  | lookup j => exact freshFor_getItem ds j bucket_id h
  | createBucket j ty cl ho cr nm =>
      have hne : ¬ j = bucket_id := hop
      refine freshFor_getItem _ _ _ ?_
      refine ⟨?_, h.2⟩
      rw [hasBucket_create_ne _ _ _ _ (by simpa using hne)]
      exact h.1
  | deleteBucket j =>
      constructor
      · show (ds.storage.delete_bucket j).hasBucket bucket_id = false
        by_cases hji : j = bucket_id
        · subst hji; exact hasBucket_delete_self _ _
        · rw [hasBucket_delete_ne _ _ _ (fun he => hji he.symm)]
          exact h.1
      · intro hm
        have hm' : bucket_id ∈ ds.bucket_instances.filter (fun x => ¬ x == j) := hm
        exact h.2 (List.mem_filter.mp hm').1
  | bucketsOp => exact h
  | insertOp j arg =>
      cases arg with
      | single e => exact ⟨h.1, h.2⟩
      | list es =>
          refine ⟨?_, h.2⟩
          show (ds.storage.insert_many j es).2.hasBucket bucket_id = false
          rw [hasBucket_insert_many]
          exact h.1
      | otherArg => exact h
  | getOp j limit st et => exact h

theorem freshFor_run (importTime : DateTime) (bucket_id : String) (ds : Datastore)
    (h : freshFor bucket_id ds) (ops : List Op)
    (hops : ∀ op ∈ ops, ¬ createsId bucket_id op) :
    freshFor bucket_id (ds.run importTime ops) := by
  induction ops generalizing ds with
  | nil => exact h
  | cons op ops ih =>
      exact ih _ (freshFor_step importTime ds op bucket_id h
        (hops op (List.mem_cons_self op ops))) (fun o ho => hops o (List.mem_cons_of_mem op ho))

theorem getItem_of_freshFor (ds : Datastore) (bucket_id : String)
    (h : freshFor bucket_id ds) : (ds.getItem bucket_id).1 = .error .keyError := by
  simp [Datastore.getItem, h.1, h.2]

/-- C1: a call to `Bucket.get` with a non-`None` endtime passes the storage
strategy an effective endtime whose microsecond component is
`1000 * (microsecond / 1000 + 1)`, unless that exceeds `999999`, in which
case the effective endtime is the start of the next whole second; in both
cases the effective endtime is the nearest millisecond boundary strictly
after the given instant (strictly later, at most one millisecond later, and
an exact multiple of a millisecond). -/
theorem bucket_get_endtime_rounded_up
    (ds : Datastore) (bucket_id : String) (limit : Int) (st : Option DateTime)
    (et : DateTime) (h : et.microsecond < 1000000) :
    (Bucket.get ds bucket_id limit st (some et)).2 =
      [SCall.getEventsCall bucket_id limit (st.map truncStarttime) (some (roundEndtime et))]
    ∧ (1000 * (et.microsecond / 1000 + 1) ≤ 999999 →
        roundEndtime et = ⟨et.seconds, 1000 * (et.microsecond / 1000 + 1)⟩)
    ∧ (999999 < 1000 * (et.microsecond / 1000 + 1) →
        roundEndtime et = ⟨et.seconds + 1, 0⟩)
    ∧ et.toMicros < (roundEndtime et).toMicros
    ∧ (roundEndtime et).toMicros ≤ et.toMicros + 1000
    ∧ (roundEndtime et).toMicros % 1000 = 0 := by
  refine ⟨rfl, ?_, ?_, ?_, ?_, ?_⟩
  · intro hle
    simp only [roundEndtime]
    rw [if_neg (by omega)]
  · intro hgt
    simp only [roundEndtime]
    rw [if_pos (by omega)]
  · simp only [roundEndtime]
    split <;> simp only [DateTime.toMicros] <;> omega
  · simp only [roundEndtime]
    split <;> simp only [DateTime.toMicros] <;> omega
  · simp only [roundEndtime]
    split <;> simp only [DateTime.toMicros] <;> omega

/-- Witness for C1 at `23:59:59.999500` of day one (second 86399, microsecond
999500): rounding carries past the millisecond maximum, so the effective
endtime becomes the start of the next whole second. -/
theorem bucket_get_endtime_rounded_up_witness :
    (⟨86399, 999500⟩ : DateTime).microsecond < 1000000
    ∧ 999999 < 1000 * ((⟨86399, 999500⟩ : DateTime).microsecond / 1000 + 1)
    ∧ roundEndtime ⟨86399, 999500⟩ = ⟨86399 + 1, 0⟩ :=
  ⟨by decide, by decide,
   (bucket_get_endtime_rounded_up (Datastore.init Storage.empty) "b" (-1) none
      ⟨86399, 999500⟩ (by decide)).2.2.1 (by decide)⟩

/-- C2: a call to `Bucket.get` with a non-`None` starttime passes the storage
strategy the given starttime truncated down to the millisecond: the seconds
stay, the microsecond component becomes `1000 * (microsecond / 1000)`, the
effective starttime is at most the given one, and an event lying exactly on
the truncated boundary satisfies the effective window's start bound. -/
theorem bucket_get_starttime_truncated
    (ds : Datastore) (bucket_id : String) (limit : Int) (et : Option DateTime)
    (st : DateTime) :
    (Bucket.get ds bucket_id limit (some st) et).2 =
      [SCall.getEventsCall bucket_id limit (some (truncStarttime st)) (et.map roundEndtime)]
    ∧ (truncStarttime st).microsecond = 1000 * (st.microsecond / 1000)
    ∧ (truncStarttime st).seconds = st.seconds
    ∧ (truncStarttime st).toMicros ≤ st.toMicros
    ∧ ∀ e : Event, e.timestamp.toMicros = (truncStarttime st).toMicros →
        inPeriod (some (truncStarttime st)) none e = true := by
  refine ⟨rfl, rfl, rfl, ?_, ?_⟩
  · simp only [truncStarttime, DateTime.toMicros]
    omega
  · intro e he
    simp [inPeriod, he]

/-- Witness for C2 at starttime microsecond 1500: the boundary event at
microsecond 1000 lies inside the effective window. -/
theorem bucket_get_starttime_truncated_witness :
    ({ timestamp := ⟨0, 1000⟩ } : Event).timestamp.toMicros
      = (truncStarttime ⟨0, 1500⟩).toMicros
    ∧ inPeriod (some (truncStarttime ⟨0, 1500⟩)) none { timestamp := ⟨0, 1000⟩ } = true :=
  ⟨by decide,
   (bucket_get_starttime_truncated (Datastore.init Storage.empty) "b" (-1) none
      ⟨0, 1500⟩).2.2.2.2 { timestamp := ⟨0, 1000⟩ } (by decide)⟩

/-- C3: the claim fails on the code.  Python evaluates the default expression
`created: datetime = datetime.now(timezone.utc)` once, when the class body
is executed at import time, so every call of `create_bucket` that omits
`created` records the same frozen import-time instant — not the current time
of the call.  Here two successive defaulted calls both record the import
instant, so their created timestamps are equal. -/
theorem create_bucket_default_created_frozen :
    let importTime : DateTime := ⟨1000, 0⟩
    let ds1 := ((Datastore.init Storage.empty).create_bucket importTime
      "a" "ty" "cl" "ho" none none).2.1
    let ds2 := (ds1.create_bucket importTime "b" "ty" "cl" "ho" none none).2.1
    (alookup ds2.storage.metas "a").map BucketMeta.created
        = some (DateTime.isoformat ⟨1000, 0⟩)
    ∧ (alookup ds2.storage.metas "b").map BucketMeta.created
        = some (DateTime.isoformat ⟨1000, 0⟩)
    ∧ (alookup ds2.storage.metas "a").map BucketMeta.created
        = (alookup ds2.storage.metas "b").map BucketMeta.created :=
  ⟨rfl, rfl, rfl⟩

/-- C5: `Bucket.insert` on an argument that is neither an `Event` nor a `list`
raises `TypeError`, leaves the datastore unchanged, and issues no
`insert_one` or `insert_many` call — the only storage call made is the
`get_events` read for the last-event check. -/
theorem insert_type_error_no_mutation (ds : Datastore) (bucket_id : String) :
    Bucket.insert ds bucket_id .otherArg
      = (.error .typeError, ds, [.getEventsCall bucket_id 1 none none], []) :=
  rfl

/-- C9: `Bucket.insert` on an empty list still delegates to the storage
strategy's `insert_many` with the empty sequence, returns its (empty)
result, and never emits the out-of-order warning, whatever events the
bucket already holds. -/
theorem insert_empty_list_delegates (ds : Datastore) (bucket_id : String) :
    Bucket.insert ds bucket_id (.list [])
      = (.ok (.many []), ds,
         [.getEventsCall bucket_id 1 none none, .insertManyCall bucket_id []], []) := by
  simp only [Bucket.insert]
  cases (Bucket.get ds bucket_id 1 none none).1.head? <;> rfl

/-- C10: looking up a bucket id that already has a cached handle returns that
handle, makes no storage call, emits no log, and leaves the datastore
unchanged — so a second lookup returns the same handle again. -/
theorem lookup_idempotent_on_cache (ds : Datastore) (bucket_id : String)
    (h : bucket_id ∈ ds.bucket_instances) :
    ds.getItem bucket_id = (.ok bucket_id, ds, [], [])
    ∧ (ds.getItem bucket_id).2.1.getItem bucket_id = (.ok bucket_id, ds, [], []) := by
  have hc : ds.bucket_instances.contains bucket_id = true := by
    simpa using h
  have h1 : ds.getItem bucket_id = (.ok bucket_id, ds, [], []) := by
    simp [Datastore.getItem, hc]
    intro hn
    exact absurd h hn
  exact ⟨h1, by rw [h1]; exact h1⟩

/-- Witness for C10: a datastore whose cache holds a handle for `"a"`. -/
theorem lookup_idempotent_on_cache_witness :
    "a" ∈ (Datastore.mk ["a"] Storage.empty).bucket_instances
    ∧ (Datastore.mk ["a"] Storage.empty).getItem "a"
        = (.ok "a", Datastore.mk ["a"] Storage.empty, [], []) :=
  ⟨by decide, (lookup_idempotent_on_cache (Datastore.mk ["a"] Storage.empty) "a"
      (by decide)).1⟩

theorem insert_logs_single (ds : Datastore) (bucket_id : String) (e : Event) :
    (Bucket.insert ds bucket_id (.single e)).2.2.2
      = match (Bucket.get ds bucket_id 1 none none).1.head? with
        | some l =>
            if e.timestamp.toMicros < l.timestamp.toMicros
            then [LogMsg.warnOlderTimestamp l e] else []
        | none => [] := by
  simp only [Bucket.insert]
  cases (Bucket.get ds bucket_id 1 none none).1.head? <;> rfl

theorem insert_logs_list (ds : Datastore) (bucket_id : String) (es : List Event) :
    (Bucket.insert ds bucket_id (.list es)).2.2.2
      = match (Bucket.get ds bucket_id 1 none none).1.head?,
          (if es.length > 0 then (sortByTs tsLe es).head? else none) with
        | some l, some o =>
            if o.timestamp.toMicros < l.timestamp.toMicros
            then [LogMsg.warnOlderTimestamp l o] else []
        | _, _ => [] := by
  simp only [Bucket.insert]

/-- C4: `Bucket.insert` on a single event or a non-empty list performs the
corresponding storage insert unconditionally and returns the storage
strategy's result; the out-of-order warning is emitted exactly when the
bucket had a most-recent event before the insert (read via `get(limit=1)`)
and the oldest inserted event — the event itself for a single insert, the
minimum by timestamp with ties broken by original order for a list — has a
strictly earlier timestamp. -/
theorem insert_out_of_order_warning
    (ds : Datastore) (bucket_id : String) (arg : InsertArg)
    (h : (∃ e, arg = InsertArg.single e) ∨ (∃ es, arg = InsertArg.list es ∧ es ≠ [])) :
    (∀ e, arg = InsertArg.single e →
        (Bucket.insert ds bucket_id arg).1
            = .ok (.one (ds.storage.insert_one bucket_id e).1)
        ∧ (Bucket.insert ds bucket_id arg).2.1
            = { ds with storage := (ds.storage.insert_one bucket_id e).2 }
        ∧ SCall.insertOneCall bucket_id e ∈ (Bucket.insert ds bucket_id arg).2.2.1)
    ∧ (∀ es, arg = InsertArg.list es →
        (Bucket.insert ds bucket_id arg).1
            = .ok (.many (ds.storage.insert_many bucket_id es).1)
        ∧ (Bucket.insert ds bucket_id arg).2.1
            = { ds with storage := (ds.storage.insert_many bucket_id es).2 }
        ∧ SCall.insertManyCall bucket_id es ∈ (Bucket.insert ds bucket_id arg).2.2.1)
    ∧ (warned (Bucket.insert ds bucket_id arg).2.2.2 ↔
        ∃ p o, (Bucket.get ds bucket_id 1 none none).1.head? = some p
          ∧ oldestOfArg arg = some o
          ∧ o.timestamp.toMicros < p.timestamp.toMicros) := by
  refine ⟨?_, ?_, ?_⟩
  · rintro e rfl
    refine ⟨rfl, rfl, ?_⟩
    show SCall.insertOneCall bucket_id e ∈
      [SCall.getEventsCall bucket_id 1 none none] ++ [SCall.insertOneCall bucket_id e]
    simp
  · rintro es rfl
    refine ⟨rfl, rfl, ?_⟩
    show SCall.insertManyCall bucket_id es ∈
      [SCall.getEventsCall bucket_id 1 none none] ++ [SCall.insertManyCall bucket_id es]
    simp
  · rcases h with ⟨e, rfl⟩ | ⟨es, rfl, hne⟩
    · rw [insert_logs_single]
      cases hp : (Bucket.get ds bucket_id 1 none none).1.head? with
      | none => simp [warned, oldestOfArg]
      | some l =>
          by_cases hlt : e.timestamp.toMicros < l.timestamp.toMicros
          · simp [warned, oldestOfArg, hlt]
          · simp [warned, oldestOfArg, hlt]
    · rw [insert_logs_list]
      have hlen : es.length > 0 := List.length_pos.mpr hne
      rw [if_pos hlen, head?_sortByTs_eq_leftmostMin]
      cases hp : (Bucket.get ds bucket_id 1 none none).1.head? with
      | none => simp [warned, oldestOfArg]
      | some l =>
          cases ho : leftmostMinByTs es with
          | none => simp [warned, oldestOfArg, ho]
          | some o =>
              by_cases hlt : o.timestamp.toMicros < l.timestamp.toMicros
              · simp [warned, oldestOfArg, ho, hlt]
              · simp [warned, oldestOfArg, ho, hlt]

/-- Witness for C4: a bucket whose latest event is at second 10; inserting a
single event at second 5 emits the out-of-order warning. -/
theorem insert_out_of_order_warning_witness :
    ((∃ e, InsertArg.single { timestamp := ⟨5, 0⟩ } = InsertArg.single e)
      ∨ (∃ es, InsertArg.single { timestamp := ⟨5, 0⟩ } = InsertArg.list es ∧ es ≠ []))
    ∧ warned (Bucket.insert
        (Datastore.mk [] (Storage.mk [] [("b", [{ timestamp := ⟨10, 0⟩ }])] 0))
        "b" (InsertArg.single { timestamp := ⟨5, 0⟩ })).2.2.2 :=
  ⟨Or.inl ⟨_, rfl⟩,
   (insert_out_of_order_warning
      (Datastore.mk [] (Storage.mk [] [("b", [{ timestamp := ⟨10, 0⟩ }])] 0))
      "b" (InsertArg.single { timestamp := ⟨5, 0⟩ }) (Or.inl ⟨_, rfl⟩)).2.2.mpr
     ⟨{ timestamp := ⟨10, 0⟩ }, { timestamp := ⟨5, 0⟩ }, by decide, rfl, by decide⟩⟩

/-- C6: `Datastore` lookup returns the cached handle when one is cached;
otherwise it consults the storage strategy's bucket listing, caching and
returning a fresh handle on a hit and logging and failing with `KeyError`
on a miss.  A bucket id never created (no create operation in the run)
fails to look up; a lookup immediately after `create_bucket` succeeds, as
does `create_bucket`'s own lookup-based result. -/
theorem lookup_semantics (ds : Datastore) (bucket_id : String) (importTime : DateTime)
    (type_ client hostname : String) (created : Option DateTime) (name : Option String) :
    (bucket_id ∈ ds.bucket_instances →
        ds.getItem bucket_id = (.ok bucket_id, ds, [], []))
    ∧ (bucket_id ∉ ds.bucket_instances → ds.storage.hasBucket bucket_id = true →
        ds.getItem bucket_id
          = (.ok bucket_id,
             { ds with bucket_instances := bucket_id :: ds.bucket_instances },
             [SCall.bucketsCall], []))
    ∧ (bucket_id ∉ ds.bucket_instances → ds.storage.hasBucket bucket_id = false →
        ds.getItem bucket_id
          = (.error .keyError, ds, [SCall.bucketsCall], [LogMsg.errorNoSuchBucket bucket_id]))
    ∧ (∀ ops : List Op, (∀ op ∈ ops, ¬ createsId bucket_id op) →
        ((Datastore.run importTime (Datastore.init Storage.empty) ops).getItem bucket_id).1
          = .error .keyError)
    ∧ (ds.create_bucket importTime bucket_id type_ client hostname created name).1
        = .ok bucket_id
    ∧ ((ds.create_bucket importTime bucket_id type_ client hostname
        created name).2.1.getItem bucket_id).1 = .ok bucket_id := by
  refine ⟨?_, ?_, ?_, ?_, ?_, ?_⟩
  · exact fun h => getItem_of_cached ds bucket_id h
  · intro h1 h2
    simp [Datastore.getItem, h1, h2]
  · intro h1 h2
    simp [Datastore.getItem, h1, h2]
  · intro ops hops
    exact getItem_of_freshFor _ _
      (freshFor_run importTime bucket_id (Datastore.init Storage.empty)
        ⟨rfl, by simp [Datastore.init]⟩ ops hops)
  · exact (create_bucket_ok ds importTime bucket_id type_ client hostname created name).1
  · have hc := (create_bucket_ok ds importTime bucket_id type_ client hostname created name).2
    rw [getItem_of_cached _ _ hc]

/-- Witness for C6: on a fresh datastore over the empty backend, looking up
`"a"` fails with `KeyError` and logs the cause. -/
theorem lookup_semantics_witness :
    ("a" ∉ (Datastore.init Storage.empty).bucket_instances)
    ∧ (Datastore.init Storage.empty).storage.hasBucket "a" = false
    ∧ (Datastore.init Storage.empty).getItem "a"
        = (.error .keyError, Datastore.init Storage.empty, [SCall.bucketsCall],
           [LogMsg.errorNoSuchBucket "a"]) :=
  ⟨by simp [Datastore.init], rfl,
   (lookup_semantics (Datastore.init Storage.empty) "a" ⟨0, 0⟩ "t" "c" "h" none
      none).2.2.1 (by simp [Datastore.init]) rfl⟩

/-- C7: along every operation sequence from a fresh datastore, a bucket id has
a cached handle only if it is present in the storage strategy's bucket
listing; and `delete_bucket` both evicts the cached handle and instructs the
storage strategy to delete the bucket. -/
theorem cache_subset_listing_invariant (importTime : DateTime) :
    (∀ (s0 : Storage) (ops : List Op),
        cacheInv (Datastore.run importTime (Datastore.init s0) ops))
    ∧ ∀ (ds : Datastore) (bucket_id : String),
        bucket_id ∉ (ds.delete_bucket bucket_id).1.bucket_instances
        ∧ (ds.delete_bucket bucket_id).1.storage.hasBucket bucket_id = false
        ∧ SCall.deleteBucketCall bucket_id ∈ (ds.delete_bucket bucket_id).2.1 := by
  constructor
  · intro s0 ops
    refine cacheInv_run importTime _ ops ?_
    intro i hi
    simp [Datastore.init] at hi
  · intro ds bucket_id
    refine ⟨?_, hasBucket_delete_self _ _, ?_⟩
    · intro hm
      have hm' : bucket_id ∈ ds.bucket_instances.filter (fun x => ¬ x == bucket_id) := hm
      have hne := (List.mem_filter.mp hm').2
      simp at hne
    · simp [Datastore.delete_bucket]

/-- Witness for C7: the invariant after creating and looking up one bucket. -/
theorem cache_subset_listing_invariant_witness :
    cacheInv (Datastore.run ⟨0, 0⟩ (Datastore.init Storage.empty)
      [Op.createBucket "a" "t" "c" "h" none none, Op.lookup "a"]) :=
  (cache_subset_listing_invariant ⟨0, 0⟩).1 Storage.empty
    [Op.createBucket "a" "t" "c" "h" none none, Op.lookup "a"]

/-- C8: `Bucket.get` passes `limit` to the storage strategy unmodified; with
the modelled storage honoring it, `get(limit=n)` returns at most `n` events
for `n ≥ 0`, and `get(limit=-1)` returns all matching events — every stored
event inside the effective window is in the result. -/
theorem get_limit_respected
    (ds : Datastore) (bucket_id : String) (st et : Option DateTime) (n : Int) :
    (Bucket.get ds bucket_id n st et).2
        = [SCall.getEventsCall bucket_id n (st.map truncStarttime) (et.map roundEndtime)]
    ∧ (0 ≤ n → ((Bucket.get ds bucket_id n st et).1.length : Int) ≤ n)
    ∧ (Bucket.get ds bucket_id (-1) st et).1
        = sortByTs tsGe ((ds.storage.eventsOf bucket_id).filter
            (inPeriod (st.map truncStarttime) (et.map roundEndtime)))
    ∧ (∀ e, e ∈ ds.storage.eventsOf bucket_id →
        inPeriod (st.map truncStarttime) (et.map roundEndtime) e = true →
        e ∈ (Bucket.get ds bucket_id (-1) st et).1) := by
  refine ⟨rfl, ?_, ?_, ?_⟩
  · intro hn
    show ((Storage.get_events ds.storage bucket_id n
        (st.map truncStarttime) (et.map roundEndtime)).length : Int) ≤ n
    simp only [Storage.get_events]
    rw [if_neg (by omega)]
    rw [List.length_take]
    omega
  · show Storage.get_events ds.storage bucket_id (-1)
        (st.map truncStarttime) (et.map roundEndtime) = _
    simp only [Storage.get_events]
    rw [if_pos (by norm_num)]
  · intro e he hp
    show e ∈ Storage.get_events ds.storage bucket_id (-1)
        (st.map truncStarttime) (et.map roundEndtime)
    simp only [Storage.get_events]
    rw [if_pos (by norm_num)]
    rw [mem_sortByTs]
    exact List.mem_filter.mpr ⟨he, hp⟩

/-- Witness for C8: a bucket with two events and `limit = 1` returns at most
one event. -/
theorem get_limit_respected_witness :
    (0 : Int) ≤ 1
    ∧ ((Bucket.get (Datastore.mk [] (Storage.mk []
        [("b", [{ timestamp := ⟨1, 0⟩ }, { timestamp := ⟨2, 0⟩ }])] 0))
        "b" 1 none none).1.length : Int) ≤ 1 :=
  ⟨by decide,
   (get_limit_respected (Datastore.mk [] (Storage.mk []
      [("b", [{ timestamp := ⟨1, 0⟩ }, { timestamp := ⟨2, 0⟩ }])] 0))
      "b" none none 1).2.1 (by decide)⟩

end AwDatastore
